import Mathlib

/-!
Verification development for the quiz-converter parsing core
(source: Code/ChatGpt/chat.py).  Python strings are embedded as lists of
characters (code points); each definition is a direct translation of the
corresponding Python function or regular-expression operation, with the
backtracking behaviour of the specific patterns in the source spelled out
explicitly.  Case mapping and the word/space character classes are modelled
for the ASCII range plus the specific non-ASCII characters that occur in the
source patterns; Python treats further Unicode letters as word characters,
which no claim here depends on.
-/

namespace QuizConv

/-- Python string, as the list of its code points. -/
abbrev PyStr := List Char

/-- Convert a Lean string literal to the Python-string embedding. -/
def pyOf (s : String) : PyStr := s.toList

/-- Whitespace class used by Python str.strip and the regex class backslash-s:
ASCII whitespace plus the common Unicode whitespace code points. -/
def isPySpace (c : Char) : Bool :=
  c = ' ' || c = '\t' || c = '\n' || c = '\r' || c = '\u000B' || c = '\u000C' ||
  c = '\u001C' || c = '\u001D' || c = '\u001E' || c = '\u001F' ||
  c = '\u0085' || c = '\u00A0' || c = '\u1680' ||
  ('\u2000' ≤ c && c ≤ '\u200A') ||
  c = '\u2028' || c = '\u2029' || c = '\u202F' || c = '\u205F' || c = '\u3000'

/-- Word-character class of the regex token backslash-w / word boundaries
(ASCII letters, digits, underscore; Python additionally counts non-ASCII
letters, which the inputs of interest do not contain). -/
def isWordChar (c : Char) : Bool :=
  ('a' ≤ c && c ≤ 'z') || ('A' ≤ c && c ≤ 'Z') || ('0' ≤ c && c ≤ '9') || c = '_'

/-- ASCII digit, for the regex token backslash-d. -/
def isDigitCh (c : Char) : Bool := '0' ≤ c && c ≤ '9'

/-- The option-label character class [A-Da-d]. -/
def isLabelChar (c : Char) : Bool :=
  c = 'A' || c = 'B' || c = 'C' || c = 'D' || c = 'a' || c = 'b' || c = 'c' || c = 'd'

/-- The label-suffix character class: close paren, close bracket, dot. -/
def isSuffixCh (c : Char) : Bool := c = ')' || c = ']' || c = '.'

/-- Opening bracket before an option label. -/
def isOpenBracket (c : Char) : Bool := c = '(' || c = '['

/-- The separator characters of SEPARATOR_RE: dash, em dash, en dash,
asterisk, underscore. -/
def isSepChar (c : Char) : Bool :=
  c = '-' || c = '—' || c = '–' || c = '*' || c = '_'

/-- Literal prefix test (the first list is a prefix of the second). -/
def litPre : PyStr → PyStr → Bool
  | [], _ => true
  | _ :: _, [] => false
  | a :: as, b :: bs => a = b && litPre as bs

/-- Case-insensitive prefix test (both sides lowered character-wise,
as the (?i) regex flag does for ASCII). -/
def ciPre : PyStr → PyStr → Bool
  | [], _ => true
  | _ :: _, [] => false
  | a :: as, b :: bs => a.toLower = b.toLower && ciPre as bs

/-- Substring containment, the Python expression needle in hay. -/
def containsSub (needle : PyStr) : PyStr → Bool
  | [] => litPre needle []
  | c :: rest => litPre needle (c :: rest) || containsSub needle rest

/-- Python str.strip: drop leading and trailing whitespace. -/
def strip (s : PyStr) : PyStr :=
  ((s.dropWhile isPySpace).reverse.dropWhile isPySpace).reverse

/-- Python str.lower, character-wise (ASCII range). -/
def lowerStr (s : PyStr) : PyStr := s.map Char.toLower

/-!  Restricted model of Unicode NFC (unicodedata.normalize("NFC", s)),
implementing the canonical decompose / reorder / compose algorithm of
UAX 15 for the code points occurring in this development: the lowercase
vowels with acute (U+00E1, U+00E9, U+00ED, U+00F3, U+00FA) canonically
decompose to the vowel + U+0301; U+0301 has combining class 230; a vowel
composes with an unblocked immediately-following U+0301.  All other
characters are treated as inert starters (combining class 0, no
decomposition, no composition), which agrees with real NFC on ASCII text
and on the concrete strings evaluated below. -/

/-- Canonical combining class (restricted table); U+0301 is the combining
acute accent. -/
def cccOf (c : Char) : Nat := if c = '\u0301' then 230 else 0

/-- Canonical decomposition (restricted table); U+00E1 to U+00FA are the
lowercase vowels with acute. -/
def nfcDecompose (c : Char) : List Char :=
  if c = '\u00E1' then ['a', '\u0301']
  else if c = '\u00E9' then ['e', '\u0301']
  else if c = '\u00ED' then ['i', '\u0301']
  else if c = '\u00F3' then ['o', '\u0301']
  else if c = '\u00FA' then ['u', '\u0301']
  else [c]

/-- Primary composite of a pair (restricted table). -/
def composePair (a b : Char) : Option Char :=
  if b = '\u0301' then
    if a = 'a' then some '\u00E1'
    else if a = 'e' then some '\u00E9'
    else if a = 'i' then some '\u00ED'
    else if a = 'o' then some '\u00F3'
    else if a = 'u' then some '\u00FA'
    else none
  else none

/-- Insert one character into the reversed prefix, moving it left past
non-starters of strictly higher combining class (canonical ordering). -/
def reorderInsert (c : Char) : List Char → List Char
  | [] => [c]
  | d :: ds =>
    if 0 < cccOf c && cccOf c < cccOf d then d :: reorderInsert c ds
    else c :: d :: ds

/-- Canonical reordering pass. -/
def canonicalReorder (s : List Char) : List Char :=
  (s.foldl (fun acc c => reorderInsert c acc) []).reverse

/-- Canonical composition pass (fuel-driven; with the restricted table a
character composes only with the immediately preceding starter, since any
intervening character blocks). -/
def nfcComposeGo : Nat → List Char → List Char
  | 0, s => s
  | _, [] => []
  | _ + 1, [a] => [a]
  | fuel + 1, a :: b :: rest =>
    match composePair a b with
    | some c => nfcComposeGo fuel (c :: rest)
    | none => a :: nfcComposeGo fuel (b :: rest)

/-- Restricted NFC normalization. -/
def nfc (s : List Char) : List Char :=
  let d := (s.map nfcDecompose).flatten
  let r := canonicalReorder d
  nfcComposeGo (r.length + 1) r

/-- Removal of the zero-width code points U+200B, U+200C, U+200D
(the three .replace calls in normalize_text). -/
def removeZeroWidth (s : PyStr) : PyStr :=
  s.filter (fun c => !(c = '\u200B' || c = '\u200C' || c = '\u200D'))

/-- re.sub collapsing CRLF / CR to LF. -/
def crToLf : PyStr → PyStr
  | [] => []
  | '\r' :: '\n' :: rest => '\n' :: crToLf rest
  | '\r' :: rest => '\n' :: crToLf rest
  | c :: rest => c :: crToLf rest

/-- For the whitespace run following a newline, the largest index j with
run at j = newline and j at least 1 (the greedy backslash-s-plus of the
pattern newline backslash-s-plus newline, with its final backtrack to a
newline). -/
def bestNlIdx (run : List Char) : Option Nat :=
  (run.enum.foldl
    (fun best pr => if pr.2 = '\n' && 1 ≤ pr.1 then some pr.1 else best) none)

/-- re.sub replacing newline + whitespace-run + newline by two newlines,
scanning left to right, non-overlapping; fuel decreases by at least one
character per step. -/
def subNlWsNlGo : Nat → PyStr → PyStr
  | 0, s => s
  | _ + 1, [] => []
  | fuel + 1, c :: rest =>
    if c = '\n' then
      match bestNlIdx (rest.takeWhile isPySpace) with
      | some j => '\n' :: '\n' :: subNlWsNlGo fuel (rest.drop (j + 1))
      | none => c :: subNlWsNlGo fuel rest
    else c :: subNlWsNlGo fuel rest

/-- The newline-run collapsing substitution of normalize_text. -/
def subNlWsNl (s : PyStr) : PyStr := subNlWsNlGo (s.length + 1) s

/-- re.sub collapsing runs of spaces and tabs to a single space. -/
def collapseSpTabGo : Nat → PyStr → PyStr
  | 0, s => s
  | _ + 1, [] => []
  | fuel + 1, c :: rest =>
    if c = ' ' || c = '\t' then
      ' ' :: collapseSpTabGo fuel (rest.dropWhile (fun d => d = ' ' || d = '\t'))
    else c :: collapseSpTabGo fuel rest

/-- The space/tab collapsing substitution of normalize_text. -/
def collapseSpTab (s : PyStr) : PyStr := collapseSpTabGo (s.length + 1) s

/-- normalize_text from chat.py: NFC, zero-width removal, CR collapse,
blank-run collapse, space collapse, strip. -/
def normalize_text (s : PyStr) : PyStr :=
  strip (collapseSpTab (subNlWsNl (crToLf (removeZeroWidth (nfc s)))))

/-- normalize_text on a possibly-null argument (the Python function also
accepts None and returns the empty string for it). -/
def normalize_text_opt : Option PyStr → PyStr
  | none => []
  | some s => normalize_text s

/-!  Block segmentation (SEPARATOR_RE and group_paragraphs_into_blocks). -/

/-- SEPARATOR_RE tested on an already-stripped paragraph: one or more
separator characters and nothing else (the trailing backslash-s-star of the
pattern can only match the empty string once the input is stripped). -/
def SEPARATOR_RE_match (t : PyStr) : Bool := !t.isEmpty && t.all isSepChar

/-- The block-closing test of group_paragraphs_into_blocks: blank or
whitespace-only paragraph, or separator paragraph. -/
def isBlankOrSep (p : PyStr) : Bool :=
  (strip p).isEmpty || SEPARATOR_RE_match (strip p)

/-- Accumulator loop of group_paragraphs_into_blocks. -/
def groupGo : List PyStr → List PyStr → List (List PyStr)
  | [], curr => if curr.isEmpty then [] else [curr]
  | p :: ps, curr =>
    if isBlankOrSep p then
      if curr.isEmpty then groupGo ps [] else curr :: groupGo ps []
    else groupGo ps (curr ++ [p])

/-- group_paragraphs_into_blocks from chat.py (the Python version also
skips None entries, which has no counterpart for string paragraph inputs;
the document reader always supplies strings). -/
def group_paragraphs_into_blocks (paragraphs : List PyStr) : List (List PyStr) :=
  groupGo paragraphs []

/-!  Heading detection (HEADING_PATTERNS and is_heading_line). -/

/-- The regex paper backslash-s-star backslash-d-plus anchored at the
start: literal paper, optional whitespace, at least one digit. -/
def matchPaperNum (ln : PyStr) : Bool :=
  litPre (pyOf "paper") ln &&
    (match ((ln.drop 5).dropWhile isPySpace) with
     | c :: _ => isDigitCh c
     | [] => false)

/-- The same with a trailing word boundary after the digits: the greedy
digit run must be followed by end of string or a non-word character
(backtracking inside the run cannot create a boundary, digits being word
characters). -/
def matchPaperNumB (ln : PyStr) : Bool :=
  litPre (pyOf "paper") ln &&
    (match ((ln.drop 5).dropWhile isPySpace) with
     | c :: rest =>
       isDigitCh c &&
         (match rest.dropWhile isDigitCh with
          | [] => true
          | d :: _ => !isWordChar d)
     | [] => false)

/-- The regex question s-optional space on, anchored at the start. -/
def matchQuestionsOn (ln : PyStr) : Bool :=
  litPre (pyOf "questions on") ln || litPre (pyOf "question on") ln

/-- is_heading_line from chat.py. -/
def is_heading_line (line : PyStr) : Bool :=
  if line.isEmpty then false
  else
    let ln := lowerStr (strip line)
    litPre (pyOf "unique questions") ln ||
    litPre (pyOf "unique questions with answers") ln ||
    matchPaperNum ln ||
    litPre (pyOf "selected questions") ln ||
    litPre (pyOf "selected questions with answers") ln ||
    matchQuestionsOn ln ||
    containsSub (pyOf "unique questions") ln ||
    containsSub (pyOf "answers and explanations") ln ||
    matchPaperNumB ln

/-!  Keyword search, modelling re.search of the three label patterns of
parse_block: a word boundary, an alternation of literal keywords tried in
the order of the pattern (case-insensitively), a word boundary, optional
whitespace, one optional colon or dash, optional whitespace.  The search
returns the start index of the leftmost match together with the text
remaining after the label part (from which each caller takes its capture
group). -/

/-- Word boundary after a keyword: end of string or a non-word character. -/
def kwBoundaryAfter : PyStr → Bool
  | [] => true
  | c :: _ => !isWordChar c

/-- Try the keyword alternatives, in pattern order, at the current
position. -/
def tryKwsAt : List PyStr → PyStr → Option Nat
  | [], _ => none
  | k :: ks, s =>
    if ciPre k s && kwBoundaryAfter (s.drop k.length) then some k.length
    else tryKwsAt ks s

/-- Consume the optional whitespace, colon-or-dash, whitespace after a
matched keyword (greedy; the whitespace classes may cross newlines). -/
def afterLabel (t : PyStr) : PyStr :=
  let t1 := t.dropWhile isPySpace
  let t2 := match t1 with
    | c :: r => if c = ':' || c = '-' then r else t1
    | [] => t1
  t2.dropWhile isPySpace

/-- Left-to-right scan for the leftmost keyword match with boundaries;
the flag records whether a word boundary holds before the current
position. -/
def searchKwGo (kws : List PyStr) : PyStr → Nat → Bool → Option (Nat × PyStr)
  | [], _, _ => none
  | c :: rest, i, bnd =>
    if bnd then
      match tryKwsAt kws (c :: rest) with
      | some kl => some (i, afterLabel ((c :: rest).drop kl))
      | none => searchKwGo kws rest (i + 1) (!isWordChar c)
    else searchKwGo kws rest (i + 1) (!isWordChar c)

/-- re.search for a keyword-label pattern over the whole string. -/
def searchKeyword (kws : List PyStr) (s : PyStr) : Option (Nat × PyStr) :=
  searchKwGo kws s 0 true

/-- The explanation-label alternation, in pattern order. -/
def explKws : List PyStr := [pyOf "explanation", pyOf "solution", pyOf "explanatory"]

/-- The answer-label alternation, in pattern order. -/
def ansKws : List PyStr :=
  [pyOf "answer", pyOf "ans", pyOf "correct", pyOf "key", pyOf "correct option"]

/-- The options-label alternation: the greedy optional s makes the regex
try the plural first. -/
def optKws : List PyStr := [pyOf "options", pyOf "option"]

/-- Explanation extraction of parse_block: on a match, the explanation is
the stripped rest of the string after the label and the remaining text is
the stripped prefix before the match. -/
def splitExplanation (raw : PyStr) : PyStr × PyStr :=
  match searchKeyword explKws raw with
  | some pr => (strip (raw.take pr.1), strip pr.2)
  | none => (raw, [])

/-- The raw answer text read off a keyword match: the rest of the line
after the label (the capture group excludes newlines), stripped. -/
def ratOf (pr : Nat × PyStr) : PyStr :=
  strip (pr.2.takeWhile (fun c => !(c = '\n' || c = '\r')))

/-- Answer extraction of parse_block: on a match, the raw answer text is
the stripped rest of the line after the label, the remaining text is the
stripped prefix before the match, and the answer letter is the first
[A-Da-d] character of the raw answer text, lower-cased, if any. -/
def splitAnswer (raw : PyStr) : PyStr × Option PyStr × Option Char :=
  match searchKeyword ansKws raw with
  | some pr =>
    (strip (raw.take pr.1), some (ratOf pr), ((ratOf pr).find? isLabelChar).map Char.toLower)
  | none => (raw, none, none)

/-!  The zero-width lookahead used by the question/options split:
an optional open bracket, a label character, an optional suffix
character, then at least one whitespace character. -/

/-- At least one whitespace character follows. -/
def wsPlus : PyStr → Bool
  | c :: _ => isPySpace c
  | [] => false

/-- Label, optional suffix, mandatory whitespace (backtracking over the
optional suffix collapses, since a suffix character is never
whitespace). -/
def labelTailWs : PyStr → Bool
  | c :: rest =>
    isLabelChar c &&
      (match rest with
       | d :: rest2 => if isSuffixCh d then wsPlus rest2 else wsPlus rest
       | [] => false)
  | [] => false

/-- The full lookahead at a position. -/
def labelStartMatch : PyStr → Bool
  | [] => false
  | b :: rest => (isOpenBracket b && labelTailWs rest) || labelTailWs (b :: rest)

/-- Index of the leftmost position where the lookahead holds (the split
point of re.split with maxsplit 1 on the lookahead pattern; a match at
index 0 yields an empty first segment, as in Python). -/
def findLabelStartGo : PyStr → Nat → Option Nat
  | [], _ => none
  | c :: rest, i =>
    if labelStartMatch (c :: rest) then some i else findLabelStartGo rest (i + 1)

/-- Leftmost lookahead position over the whole string. -/
def findLabelStartIdx (s : PyStr) : Option Nat := findLabelStartGo s 0

/-!  The per-paragraph option regex of the separate-paragraphs fallback:
anchored whitespace, optional open bracket, label, optional suffix,
greedy whitespace (with backtracking), then a non-empty run of
non-newline characters as the second group. -/

/-- Try the tail (whitespace-star then dot-plus) with j characters of
whitespace consumed, backtracking downward. -/
def sepTailGo (cs : PyStr) : Nat → Option PyStr
  | 0 =>
    (match cs with
     | c :: _ => if c = '\n' then none else some (cs.takeWhile (fun d => !(d = '\n')))
     | [] => none)
  | j + 1 =>
    (match cs.drop (j + 1) with
     | c :: _ =>
       if c = '\n' then sepTailGo cs j
       else some ((cs.drop (j + 1)).takeWhile (fun d => !(d = '\n')))
     | [] => sepTailGo cs j)

/-- The tail match, trying the greedy whitespace amount first. -/
def sepTail (cs : PyStr) : Option PyStr :=
  sepTailGo cs ((cs.takeWhile isPySpace).length)

/-- Label, optional suffix (with its backtracking), then the tail. -/
def sepLabelPart : PyStr → Option (Char × PyStr)
  | c :: rest =>
    if isLabelChar c then
      match rest with
      | d :: rest2 =>
        if isSuffixCh d then
          match sepTail rest2 with
          | some g2 => some (c, g2)
          | none =>
            match sepTail rest with
            | some g2 => some (c, g2)
            | none => none
        else
          (sepTail rest).map (fun g2 => (c, g2))
      | [] => none
    else none
  | [] => none

/-- re.match of the separate-paragraph option pattern. -/
def matchSeparateOpt (p : PyStr) : Option (Char × PyStr) :=
  let t := p.dropWhile isPySpace
  match t with
  | b :: rest => if isOpenBracket b then sepLabelPart rest else sepLabelPart t
  | [] => none

/-!  The option-pair findall: optional open bracket, label, optional
suffix, greedy whitespace (backtrackable), then a lazy non-empty run of
characters other than open parenthesis and open bracket, stopped by a
lookahead for the next label (optional open bracket, label character) or
end of string. -/

/-- The stopping lookahead of the pair pattern. -/
def lookaheadOk : PyStr → Bool
  | [] => true
  | c :: rest =>
    isLabelChar c ||
      (isOpenBracket c && (match rest with | d :: _ => isLabelChar d | [] => false))

/-- Lazy text expansion: consume at least one permitted character and
stop at the first position where the lookahead holds. -/
def pairTextGo : Nat → PyStr → PyStr → Option (PyStr × PyStr)
  | 0, _, _ => none
  | fuel + 1, accRev, cs =>
    match cs with
    | [] => none
    | c :: rest =>
      if isOpenBracket c then none
      else if lookaheadOk rest then some ((c :: accRev).reverse, rest)
      else pairTextGo fuel (c :: accRev) rest

/-- Whitespace-then-text with backtracking over the greedy whitespace. -/
def pairWsTextGo (cs : PyStr) : Nat → Option (PyStr × PyStr)
  | 0 => pairTextGo (cs.length + 1) [] cs
  | j + 1 =>
    match pairTextGo (cs.length + 1) [] (cs.drop (j + 1)) with
    | some r => some r
    | none => pairWsTextGo cs j

/-- The whitespace-and-text part of the pair pattern. -/
def pairWsText (cs : PyStr) : Option (PyStr × PyStr) :=
  pairWsTextGo cs ((cs.takeWhile isPySpace).length)

/-- Label, optional suffix (with backtracking), whitespace and text;
returns label, text, and the remainder after the match. -/
def pairLabelPart : PyStr → Option (Char × PyStr × PyStr)
  | c :: rest =>
    if isLabelChar c then
      match rest with
      | d :: rest2 =>
        if isSuffixCh d then
          match pairWsText rest2 with
          | some r => some (c, r.1, r.2)
          | none =>
            match pairWsText rest with
            | some r => some (c, r.1, r.2)
            | none => none
        else
          match pairWsText rest with
          | some r => some (c, r.1, r.2)
          | none => none
      | [] => none
    else none
  | [] => none

/-- One attempt of the pair pattern at the current position (the optional
open bracket is tried consumed first; if the bracket is present but no
label follows, the unconsumed alternative also fails, a bracket not being
a label character). -/
def pairMatchAt : PyStr → Option (Char × PyStr × PyStr)
  | b :: rest => if isOpenBracket b then pairLabelPart rest else pairLabelPart (b :: rest)
  | [] => none

/-- re.findall scan: leftmost matches, resuming after each match. -/
def findPairsGo : Nat → PyStr → List (Char × PyStr)
  | 0, _ => []
  | fuel + 1, cs =>
    match cs with
    | [] => []
    | c :: rest =>
      match pairMatchAt (c :: rest) with
      | some r => (r.1, r.2.1) :: findPairsGo fuel r.2.2
      | none => findPairsGo fuel rest

/-- The opt_pairs list of parse_block. -/
def opt_pairs (s : PyStr) : List (Char × PyStr) := findPairsGo (s.length + 1) s

/-- The label_map dict comprehension (keys lower-cased, values stripped,
later entries overwriting earlier ones) followed by .get with default
empty string. -/
def labelMapGet (prs : List (Char × PyStr)) (lab : Char) : PyStr :=
  match ((prs.map (fun pr => (pr.1.toLower, strip pr.2))).reverse.find?
      (fun pr => pr.1 = lab)) with
  | some pr => pr.2
  | none => []

/-!  The inline fallback split on whitespace + label + mandatory suffix +
whitespace tokens. -/

/-- Token match at the current position: maximal whitespace (giving back
whitespace cannot reach a label), a label character, a mandatory suffix
character, then maximal trailing whitespace; returns the token length. -/
def tokenAt (cs : PyStr) : Option Nat :=
  let w := (cs.takeWhile isPySpace).length
  match cs.drop w with
  | c :: d :: rest =>
    if isLabelChar c && isSuffixCh d then
      some (w + 2 + ((rest.takeWhile isPySpace).length))
    else none
  | _ => none

/-- re.split scan for the inline fallback. -/
def splitInlineGo : Nat → PyStr → PyStr → List PyStr
  | 0, accRev, cs => [accRev.reverse ++ cs]
  | fuel + 1, accRev, cs =>
    match cs with
    | [] => [accRev.reverse]
    | c :: rest =>
      match tokenAt (c :: rest) with
      | some tl => accRev.reverse :: splitInlineGo fuel [] ((c :: rest).drop tl)
      | none => splitInlineGo fuel (c :: accRev) rest

/-- The inline fallback split of parse_block. -/
def splitInline (s : PyStr) : List PyStr := splitInlineGo (s.length + 1) [] s

/-- Option construction of parse_block: pairs path when findall found
anything, else the inline-split fallback (first four non-empty normalized
segments, or padding with empties), else four empty strings. -/
def buildOpts (options_part : PyStr) : List PyStr :=
  let prs := opt_pairs options_part
  if !prs.isEmpty then
    [normalize_text (labelMapGet prs 'a'), normalize_text (labelMapGet prs 'b'),
     normalize_text (labelMapGet prs 'c'), normalize_text (labelMapGet prs 'd')]
  else
    let inline := ((splitInline options_part).map normalize_text).filter
      (fun x => !x.isEmpty)
    if !inline.isEmpty then
      if 4 ≤ inline.length then inline.take 4
      else inline ++ List.replicate (4 - inline.length) []
    else [[], [], [], []]

/-- The padding step of the ensure-4 clamp of parse_block. -/
def pad4 (opts : List PyStr) : List PyStr :=
  if opts.length < 4 then opts ++ List.replicate (4 - opts.length) [] else opts

/-- The ensure-4 clamp of parse_block (pad with empty strings, then
truncate to four). -/
def ensure4 (opts : List PyStr) : List PyStr :=
  if 4 < (pad4 opts).length then (pad4 opts).take 4 else pad4 opts

/-- The string abcd indexed at i (in parse_block the index is always
below four; the embedding totalizes with the same letter a). -/
def abcdGet (i : Nat) : Char := (['a', 'b', 'c', 'd']).getD i 'a'

/-- The containment loop of parse_block: first index whose option is
non-empty and, lower-cased, occurs in the lower-cased raw answer text. -/
def containmentGo (ra : PyStr) : List PyStr → Nat → Option Nat
  | [], _ => none
  | o :: rest, i =>
    if !o.isEmpty && containsSub (lowerStr o) ra then some i
    else containmentGo ra rest (i + 1)

/-- Answer resolution of parse_block: an extracted letter wins outright;
otherwise containment runs only for a non-empty raw answer text; otherwise
the assumed default letter a. -/
def resolveAnswer (opts : List PyStr) (answer_letter : Option Char)
    (raw_answer_text : Option PyStr) : PyStr × Bool :=
  match answer_letter with
  | some c => ([c], false)
  | none =>
    match raw_answer_text with
    | some rat =>
      if rat.isEmpty then (['a'], true)
      else
        match containmentGo (lowerStr rat) opts 0 with
        | some i => ([abcdGet i], false)
        | none => (['a'], true)
    | none => (['a'], true)

/-- The Question record emitted by parse_block. -/
structure Question where
  question : PyStr
  options : List PyStr
  answer : PyStr
  assumed : Bool
  explanation : PyStr
  raw_block : PyStr
deriving DecidableEq, Repr

/-- The f-string rendering of one separate-paragraph option. -/
def fmtOpt (pr : Char × PyStr) : PyStr := '(' :: pr.1 :: ')' :: ' ' :: pr.2

/-- Question/options split of parse_block: the Options label first, then
the lookahead split, then the separate-paragraphs fallback, else the whole
remaining text is the question with empty options text. -/
def splitQuestionOptions (raw : PyStr) (paras : List PyStr) : PyStr × PyStr :=
  match searchKeyword optKws raw with
  | some pr => (strip (raw.take pr.1), strip pr.2)
  | none =>
    match findLabelStartIdx raw with
    | some i => (strip (raw.take i), strip (raw.drop i))
    | none =>
      let sep := (paras.drop 1).filterMap
        (fun p => (matchSeparateOpt p).map (fun pr => (pr.1.toLower, strip pr.2)))
      if sep.isEmpty then (raw, [])
      else (strip (paras.headD []), List.intercalate [' '] (sep.map fmtOpt))

/-- The initial paragraph filter of parse_block (truthy and not
whitespace-only). -/
def filteredParas (block : List PyStr) : List PyStr :=
  block.filter (fun p => !p.isEmpty && !(strip p).isEmpty)

/-- Leading-heading stripping of parse_block. -/
def strippedParas (block : List PyStr) : List PyStr :=
  (filteredParas block).dropWhile is_heading_line

/-- The joined and stripped block text of parse_block. -/
def rawJoined (block : List PyStr) : PyStr :=
  strip (List.intercalate [' '] (strippedParas block))

/-- Remaining text after the explanation peel. -/
def rawAfterExpl (block : List PyStr) : PyStr := (splitExplanation (rawJoined block)).1

/-- The extracted explanation text. -/
def explanationOf (block : List PyStr) : PyStr := (splitExplanation (rawJoined block)).2

/-- The answer peel applied after the explanation peel. -/
def ansTriple (block : List PyStr) : PyStr × Option PyStr × Option Char :=
  splitAnswer (rawAfterExpl block)

/-- Remaining text after the answer peel (the value of raw at the end of
parse_block). -/
def rawAfterAns (block : List PyStr) : PyStr := (ansTriple block).1

/-- The raw answer text of the block, when the answer label matched. -/
def rawAnswerTextOf (block : List PyStr) : Option PyStr := (ansTriple block).2.1

/-- The extracted answer letter of the block, when one was found. -/
def answerLetterOf (block : List PyStr) : Option Char := (ansTriple block).2.2

/-- Question text and options text of the block. -/
def qoOf (block : List PyStr) : PyStr × PyStr :=
  splitQuestionOptions (rawAfterAns block) (strippedParas block)

/-- The four options of the block. -/
def optsOf (block : List PyStr) : List PyStr := ensure4 (buildOpts (qoOf block).2)

/-- The resolved answer letter and assumed flag of the block. -/
def resolvedOf (block : List PyStr) : PyStr × Bool :=
  resolveAnswer (optsOf block) (answerLetterOf block) (rawAnswerTextOf block)

/-- The record parse_block assembles before its final guard. -/
def assembledQ (block : List PyStr) : Question :=
  { question := normalize_text (qoOf block).1
    options := optsOf block
    answer := (resolvedOf block).1
    assumed := (resolvedOf block).2
    explanation := normalize_text (explanationOf block)
    raw_block := normalize_text (rawAfterAns block) }

/-- parse_block from chat.py (the index argument only feeds the debug
trace, which is not part of the Question record). -/
def parse_block (block : List PyStr) (_idx : Nat) : Option Question :=
  if (filteredParas block).isEmpty then none
  else if (strippedParas block).isEmpty then none
  else if (assembledQ block).question.isEmpty
      && (assembledQ block).options.all List.isEmpty then none
  else some (assembledQ block)

/-- The segmentation-plus-parsing pipeline of parse_docx_to_questions
(its pure core: enumerate the blocks, parse each, keep the non-None
results in order). -/
def parse_paragraphs (ps : List PyStr) : List Question :=
  (group_paragraphs_into_blocks ps).enum.filterMap (fun pr => parse_block pr.2 pr.1)

/-!  The correct/incorrect column of the option rows written by
write_output_docx. -/

/-- The idx_map lookup with default 0. -/
def idx_map_get (letter : PyStr) : Nat :=
  if letter = pyOf "a" then 0
  else if letter = pyOf "b" then 1
  else if letter = pyOf "c" then 2
  else if letter = pyOf "d" then 3
  else 0

/-- The third-column marks of the four option rows for one question, from
the possibly-missing answer field (q.get with default a, lower-cased). -/
def option_row_marks (answer_field : Option PyStr) : List PyStr :=
  let letter := lowerStr (answer_field.getD (pyOf "a"))
  let correct_idx := idx_map_get letter
  (List.range 4).map (fun i => if i = correct_idx then pyOf "correct" else pyOf "incorrect")

/-!  General lemmas about the embedding.  The pipeline definitions are
made irreducible while the universally-quantified lemmas are proved (all
reasoning is by their defining equations, not by deep definitional
unfolding), and restored afterwards for the concrete evaluations. -/

attribute [irreducible] filteredParas strippedParas rawJoined rawAfterExpl
  explanationOf ansTriple rawAfterAns rawAnswerTextOf answerLetterOf qoOf
  optsOf resolvedOf assembledQ parse_block parse_paragraphs

lemma isEmpty_true_iff {α : Type} (l : List α) : l.isEmpty = true ↔ l = [] := by
  cases l <;> simp

lemma pad4_length (opts : List PyStr) : (pad4 opts).length = max 4 opts.length := by
  unfold pad4
  split_ifs with h <;> simp [List.length_append, List.length_replicate] <;> omega

lemma ensure4_length (opts : List PyStr) : (ensure4 opts).length = 4 := by
  unfold ensure4
  split_ifs with h
  · rw [pad4_length] at h
    rw [List.length_take, pad4_length]
    omega
  · rw [pad4_length] at h
    rw [pad4_length]
    omega

lemma abcdGet_cases (i : Nat) :
    abcdGet i = 'a' ∨ abcdGet i = 'b' ∨ abcdGet i = 'c' ∨ abcdGet i = 'd' := by
  rcases i with _ | _ | _ | _ | n
  · exact Or.inl rfl
  · exact Or.inr (Or.inl rfl)
  · exact Or.inr (Or.inr (Or.inl rfl))
  · exact Or.inr (Or.inr (Or.inr rfl))
  · refine Or.inl (List.getD_eq_default _ _ ?_)
    simp only [List.length_cons, List.length_nil]
    omega

lemma resolveAnswer_some (opts : List PyStr) (x : Char) (rat : Option PyStr) :
    resolveAnswer opts (some x) rat = ([x], false) := by
  unfold resolveAnswer
  rfl

lemma resolveAnswer_none_none (opts : List PyStr) :
    resolveAnswer opts none none = (['a'], true) := by
  unfold resolveAnswer
  rfl

lemma resolveAnswer_none_some (opts : List PyStr) (t : PyStr) :
    resolveAnswer opts none (some t) =
      if t.isEmpty = true then (['a'], true)
      else
        match containmentGo (lowerStr t) opts 0 with
        | some i => ([abcdGet i], false)
        | none => (['a'], true) := by
  unfold resolveAnswer
  rfl

lemma resolveAnswer_empty (opts : List PyStr) (t : PyStr) (ht : t.isEmpty = true) :
    resolveAnswer opts none (some t) = (['a'], true) := by
  rw [resolveAnswer_none_some, ht, if_pos rfl]

lemma resolveAnswer_cont_some (opts : List PyStr) (t : PyStr) (i : Nat)
    (ht : t.isEmpty = false) (hcg : containmentGo (lowerStr t) opts 0 = some i) :
    resolveAnswer opts none (some t) = ([abcdGet i], false) := by
  rw [resolveAnswer_none_some, ht, if_neg Bool.false_ne_true, hcg]

lemma resolveAnswer_cont_none (opts : List PyStr) (t : PyStr)
    (ht : t.isEmpty = false) (hcg : containmentGo (lowerStr t) opts 0 = none) :
    resolveAnswer opts none (some t) = (['a'], true) := by
  rw [resolveAnswer_none_some, ht, if_neg Bool.false_ne_true, hcg]

lemma resolveAnswer_inv (opts : List PyStr) (al : Option Char) (rat : Option PyStr)
    (hal : ∀ c, al = some c → c = 'a' ∨ c = 'b' ∨ c = 'c' ∨ c = 'd') :
    ((resolveAnswer opts al rat).1 = ['a'] ∨ (resolveAnswer opts al rat).1 = ['b'] ∨
      (resolveAnswer opts al rat).1 = ['c'] ∨ (resolveAnswer opts al rat).1 = ['d']) ∧
    ((resolveAnswer opts al rat).2 = true → (resolveAnswer opts al rat).1 = ['a']) := by
  rcases al with _ | c
  · rcases rat with _ | t
    · rw [resolveAnswer_none_none]
      exact ⟨Or.inl rfl, fun _ => rfl⟩
    · cases ht : t.isEmpty
      · rcases hcg : containmentGo (lowerStr t) opts 0 with _ | i
        · rw [resolveAnswer_cont_none opts t ht hcg]
          exact ⟨Or.inl rfl, fun _ => rfl⟩
        · rw [resolveAnswer_cont_some opts t i ht hcg]
          refine ⟨?_, fun hb => nomatch hb⟩
          rcases abcdGet_cases i with h | h | h | h <;> rw [h]
          · exact Or.inl rfl
          · exact Or.inr (Or.inl rfl)
          · exact Or.inr (Or.inr (Or.inl rfl))
          · exact Or.inr (Or.inr (Or.inr rfl))
      · rw [resolveAnswer_empty opts t ht]
        exact ⟨Or.inl rfl, fun _ => rfl⟩
  · have hc := hal c rfl
    rw [resolveAnswer_some]
    refine ⟨?_, fun hb => nomatch hb⟩
    rcases hc with h | h | h | h <;> rw [h]
    · exact Or.inl rfl
    · exact Or.inr (Or.inl rfl)
    · exact Or.inr (Or.inr (Or.inl rfl))
    · exact Or.inr (Or.inr (Or.inr rfl))

lemma answerLetterOf_mem (block : List PyStr) (c : Char)
    (h : answerLetterOf block = some c) : c = 'a' ∨ c = 'b' ∨ c = 'c' ∨ c = 'd' := by
  unfold answerLetterOf ansTriple splitAnswer at h
  rcases hs : searchKeyword ansKws (rawAfterExpl block) with _ | pr <;> rw [hs] at h
  · cases h
  · simp only [Option.map_eq_some'] at h
    obtain ⟨c0, hc0, rfl⟩ := h
    have hp : isLabelChar c0 = true := List.find?_some hc0
    unfold isLabelChar at hp
    simp only [Bool.or_eq_true, decide_eq_true_eq] at hp
    rcases hp with ((((((h | h) | h) | h) | h) | h) | h) | h <;> subst h <;> decide

lemma assembledQ_question (b : List PyStr) :
    (assembledQ b).question = normalize_text (qoOf b).1 := by
  simp only [assembledQ]

lemma assembledQ_options (b : List PyStr) : (assembledQ b).options = optsOf b := by
  simp only [assembledQ]

lemma assembledQ_answer (b : List PyStr) : (assembledQ b).answer = (resolvedOf b).1 := by
  simp only [assembledQ]

lemma assembledQ_assumed (b : List PyStr) : (assembledQ b).assumed = (resolvedOf b).2 := by
  simp only [assembledQ]

lemma assembledQ_raw_block (b : List PyStr) :
    (assembledQ b).raw_block = normalize_text (rawAfterAns b) := by
  simp only [assembledQ]

lemma assembled_inv (block : List PyStr) :
    (assembledQ block).options.length = 4 ∧
    ((assembledQ block).answer = ['a'] ∨ (assembledQ block).answer = ['b'] ∨
      (assembledQ block).answer = ['c'] ∨ (assembledQ block).answer = ['d']) ∧
    ((assembledQ block).assumed = true → (assembledQ block).answer = ['a']) := by
  have hres := resolveAnswer_inv (optsOf block) (answerLetterOf block) (rawAnswerTextOf block)
    (answerLetterOf_mem block)
  refine ⟨?_, ?_, ?_⟩
  · rw [assembledQ_options]
    unfold optsOf
    exact ensure4_length _
  · rw [assembledQ_answer]
    unfold resolvedOf
    exact hres.1
  · rw [assembledQ_answer, assembledQ_assumed]
    unfold resolvedOf
    exact hres.2

lemma parse_block_some {block : List PyStr} {i : Nat} {q : Question}
    (h : parse_block block i = some q) :
    q = assembledQ block ∧
    ((assembledQ block).question.isEmpty
      && (assembledQ block).options.all List.isEmpty) = false := by
  unfold parse_block at h
  cases hb1 : (filteredParas block).isEmpty <;> rw [hb1] at h
  · rw [if_neg Bool.false_ne_true] at h
    cases hb2 : (strippedParas block).isEmpty <;> rw [hb2] at h
    · rw [if_neg Bool.false_ne_true] at h
      cases hb3 : ((assembledQ block).question.isEmpty
          && (assembledQ block).options.all List.isEmpty) <;> rw [hb3] at h
      · rw [if_neg Bool.false_ne_true] at h
        exact ⟨(Option.some.inj h).symm, rfl⟩
      · rw [if_pos rfl] at h
        exact Option.noConfusion h
    · rw [if_pos rfl] at h
      exact Option.noConfusion h
  · rw [if_pos rfl] at h
    exact Option.noConfusion h

lemma parse_block_inv (block : List PyStr) (idx : Nat) (q : Question)
    (h : parse_block block idx = some q) :
    q.options.length = 4 ∧
    (q.answer = ['a'] ∨ q.answer = ['b'] ∨ q.answer = ['c'] ∨ q.answer = ['d']) ∧
    (q.assumed = true → q.answer = ['a']) ∧
    ¬(q.question = [] ∧ ∀ o ∈ q.options, o = []) := by
  obtain ⟨rfl, hg⟩ := parse_block_some h
  obtain ⟨h1, h2, h3⟩ := assembled_inv block
  refine ⟨h1, h2, h3, ?_⟩
  rintro ⟨hq0, hall⟩
  have hA : (assembledQ block).question.isEmpty = true := by
    rw [hq0]
    rfl
  have hB : (assembledQ block).options.all List.isEmpty = true := by
    rw [List.all_eq_true]
    intro o ho
    rw [hall o ho]
    rfl
  rw [hA, hB] at hg
  cases hg

lemma pipeline_inv (ps : List PyStr) (q : Question) (hq : q ∈ parse_paragraphs ps) :
    q.options.length = 4 ∧
    (q.answer = ['a'] ∨ q.answer = ['b'] ∨ q.answer = ['c'] ∨ q.answer = ['d']) ∧
    (q.assumed = true → q.answer = ['a']) ∧
    ¬(q.question = [] ∧ ∀ o ∈ q.options, o = []) := by
  unfold parse_paragraphs at hq
  obtain ⟨pr, hmem, hpr⟩ := List.mem_filterMap.mp hq
  exact parse_block_inv pr.2 pr.1 q hpr

lemma isEmpty_false_of_ne {α : Type} {l : List α} (h : l ≠ []) : l.isEmpty = false := by
  cases l
  · exact absurd rfl h
  · rfl

lemma strip_nil : strip [] = [] := rfl

lemma lowerStr_nil : lowerStr [] = [] := rfl

lemma containmentGo_eq_none (ra : PyStr) :
    ∀ (opts : List PyStr) (i : Nat),
    (∀ o ∈ opts, o = [] ∨ containsSub (lowerStr o) ra = false) →
    containmentGo ra opts i = none := by
  intro opts
  induction opts with
  | nil =>
    intro i h
    rfl
  | cons o rest ih =>
    intro i h
    have ho := h o (List.mem_cons_self o rest)
    have hcond : (!o.isEmpty && containsSub (lowerStr o) ra) = false := by
      rcases ho with ho | ho
      · subst ho
        rfl
      · rw [ho, Bool.and_false]
    unfold containmentGo
    rw [hcond, if_neg Bool.false_ne_true]
    exact ih (i + 1) (fun o2 ho2 => h o2 (List.mem_cons_of_mem o ho2))

lemma containmentGo_eq_some (ra : PyStr) :
    ∀ (opts : List PyStr) (k i : Nat),
    k < opts.length →
    opts.getD k [] ≠ [] →
    containsSub (lowerStr (opts.getD k [])) ra = true →
    (∀ j, j < k → opts.getD j [] = [] ∨ containsSub (lowerStr (opts.getD j [])) ra = false) →
    containmentGo ra opts i = some (i + k) := by
  intro opts
  induction opts with
  | nil =>
    intro k i hk
    exact absurd hk (by simp)
  | cons o rest ih =>
    intro k i hk hne hcon hprev
    cases k with
    | zero =>
      rw [List.getD_cons_zero] at hne hcon
      have hcond : (!o.isEmpty && containsSub (lowerStr o) ra) = true := by
        rw [isEmpty_false_of_ne hne, hcon]
        rfl
      unfold containmentGo
      rw [hcond, if_pos rfl, Nat.add_zero]
    | succ k2 =>
      have h0 := hprev 0 (Nat.succ_pos k2)
      rw [List.getD_cons_zero] at h0
      have hcond : (!o.isEmpty && containsSub (lowerStr o) ra) = false := by
        rcases h0 with h0 | h0
        · subst h0
          rfl
        · rw [h0, Bool.and_false]
      unfold containmentGo
      rw [hcond, if_neg Bool.false_ne_true]
      have hk2 : k2 < rest.length := by
        simp only [List.length_cons] at hk
        omega
      have hne2 : rest.getD k2 [] ≠ [] := by
        rw [List.getD_cons_succ] at hne
        exact hne
      have hcon2 : containsSub (lowerStr (rest.getD k2 [])) ra = true := by
        rw [List.getD_cons_succ] at hcon
        exact hcon
      have hprev2 : ∀ j, j < k2 → rest.getD j [] = [] ∨
          containsSub (lowerStr (rest.getD j [])) ra = false := by
        intro j hj
        have := hprev (j + 1) (by omega)
        rw [List.getD_cons_succ] at this
        exact this
      rw [ih k2 (i + 1) hk2 hne2 hcon2 hprev2]
      congr 1
      omega

lemma resolve_no_match (opts : List PyStr) (rat : PyStr) (hne : rat ≠ [])
    (h : ∀ o ∈ opts, o = [] ∨ containsSub (lowerStr o) (lowerStr rat) = false) :
    resolveAnswer opts none (some rat) = (['a'], true) :=
  resolveAnswer_cont_none opts rat (isEmpty_false_of_ne hne)
    (containmentGo_eq_none (lowerStr rat) opts 0 h)

lemma resolve_first_match (opts : List PyStr) (rat : PyStr) (k : Nat) (hne : rat ≠ [])
    (hk : k < opts.length) (hko : opts.getD k [] ≠ [])
    (hcon : containsSub (lowerStr (opts.getD k [])) (lowerStr rat) = true)
    (hprev : ∀ j, j < k → opts.getD j [] = [] ∨
      containsSub (lowerStr (opts.getD j [])) (lowerStr rat) = false) :
    resolveAnswer opts none (some rat) = ([abcdGet k], false) := by
  have hcg := containmentGo_eq_some (lowerStr rat) opts k 0 hk hko hcon hprev
  rw [Nat.zero_add] at hcg
  exact resolveAnswer_cont_some opts rat k (isEmpty_false_of_ne hne) hcg

lemma groupGo_nil_flatten (curr : List PyStr) : (groupGo [] curr).flatten = curr := by
  unfold groupGo
  cases hc : curr.isEmpty
  · rw [if_neg Bool.false_ne_true]
    simp
  · rw [if_pos rfl, (isEmpty_true_iff curr).mp hc]
    rfl

lemma groupGo_cons_sep (p : PyStr) (ps : List PyStr) (curr : List PyStr)
    (hb : isBlankOrSep p = true) :
    groupGo (p :: ps) curr =
      if curr.isEmpty then groupGo ps [] else curr :: groupGo ps [] := by
  conv_lhs => unfold groupGo
  rw [hb, if_pos rfl]

lemma groupGo_cons_nonsep (p : PyStr) (ps : List PyStr) (curr : List PyStr)
    (hb : isBlankOrSep p = false) :
    groupGo (p :: ps) curr = groupGo ps (curr ++ [p]) := by
  conv_lhs => unfold groupGo
  rw [hb, if_neg Bool.false_ne_true]

lemma groupGo_flatten (ps : List PyStr) :
    ∀ curr : List PyStr,
    (groupGo ps curr).flatten = curr ++ ps.filter (fun p => !isBlankOrSep p) := by
  induction ps with
  | nil =>
    intro curr
    rw [groupGo_nil_flatten]
    simp
  | cons p ps ih =>
    intro curr
    cases hb : isBlankOrSep p
    · rw [groupGo_cons_nonsep p ps curr hb, ih, List.filter_cons, hb]
      simp
    · rw [groupGo_cons_sep p ps curr hb]
      cases hc : curr.isEmpty
      · rw [if_neg Bool.false_ne_true]
        rw [List.flatten_cons, ih [], List.filter_cons, hb]
        simp
      · rw [if_pos rfl, ih [], (isEmpty_true_iff curr).mp hc, List.filter_cons, hb]
        simp

lemma groupGo_ne_nil (ps : List PyStr) :
    ∀ (curr b : List PyStr), b ∈ groupGo ps curr → b ≠ [] := by
  induction ps with
  | nil =>
    intro curr b hb
    unfold groupGo at hb
    cases hc : curr.isEmpty <;> rw [hc] at hb
    · rw [if_neg Bool.false_ne_true, List.mem_singleton] at hb
      subst hb
      intro hcontra
      rw [hcontra] at hc
      exact absurd hc (by decide)
    · rw [if_pos rfl] at hb
      exact absurd hb (List.not_mem_nil b)
  | cons p ps ih =>
    intro curr b hb
    cases hsep : isBlankOrSep p
    · rw [groupGo_cons_nonsep p ps curr hsep] at hb
      exact ih (curr ++ [p]) b hb
    · rw [groupGo_cons_sep p ps curr hsep] at hb
      cases hc : curr.isEmpty <;> rw [hc] at hb
      · rw [if_neg Bool.false_ne_true, List.mem_cons] at hb
        rcases hb with rfl | hb
        · intro hcontra
          rw [hcontra] at hc
          exact absurd hc (by decide)
        · exact ih [] b hb
      · rw [if_pos rfl] at hb
        exact ih [] b hb

lemma group_flatten (ps : List PyStr) :
    (group_paragraphs_into_blocks ps).flatten = ps.filter (fun p => !isBlankOrSep p) := by
  unfold group_paragraphs_into_blocks
  rw [groupGo_flatten ps []]
  rfl

lemma group_ne_nil (ps : List PyStr) (b : List PyStr)
    (hb : b ∈ group_paragraphs_into_blocks ps) : b ≠ [] := by
  unfold group_paragraphs_into_blocks at hb
  exact groupGo_ne_nil ps [] b hb

lemma group_no_sep (ps : List PyStr) (b : List PyStr)
    (hb : b ∈ group_paragraphs_into_blocks ps) (p : PyStr) (hp : p ∈ b) :
    isBlankOrSep p = false := by
  have hmem : p ∈ (group_paragraphs_into_blocks ps).flatten := List.mem_flatten.mpr ⟨b, hb, hp⟩
  rw [group_flatten] at hmem
  have h2 := (List.mem_filter.mp hmem).2
  simpa using h2

lemma is_heading_line_of_ne (s : PyStr) (hs : s.isEmpty = false) :
    is_heading_line s =
      (litPre (pyOf "unique questions") (lowerStr (strip s)) ||
       litPre (pyOf "unique questions with answers") (lowerStr (strip s)) ||
       matchPaperNum (lowerStr (strip s)) ||
       litPre (pyOf "selected questions") (lowerStr (strip s)) ||
       litPre (pyOf "selected questions with answers") (lowerStr (strip s)) ||
       matchQuestionsOn (lowerStr (strip s)) ||
       containsSub (pyOf "unique questions") (lowerStr (strip s)) ||
       containsSub (pyOf "answers and explanations") (lowerStr (strip s)) ||
       matchPaperNumB (lowerStr (strip s))) := by
  unfold is_heading_line
  rw [hs, if_neg Bool.false_ne_true]

lemma heading_of_uq (s : PyStr)
    (h : litPre (pyOf "unique questions") (lowerStr (strip s)) = true) :
    is_heading_line s = true := by
  have hs : s.isEmpty = false := by
    cases s with
    | nil =>
      rw [strip_nil, lowerStr_nil] at h
      exact absurd h (by decide)
    | cons c cs => rfl
  rw [is_heading_line_of_ne s hs]
  simp [h]

lemma heading_of_sq (s : PyStr)
    (h : litPre (pyOf "selected questions") (lowerStr (strip s)) = true) :
    is_heading_line s = true := by
  have hs : s.isEmpty = false := by
    cases s with
    | nil =>
      rw [strip_nil, lowerStr_nil] at h
      exact absurd h (by decide)
    | cons c cs => rfl
  rw [is_heading_line_of_ne s hs]
  simp [h]

lemma heading_of_qon (s : PyStr) (h : matchQuestionsOn (lowerStr (strip s)) = true) :
    is_heading_line s = true := by
  have hs : s.isEmpty = false := by
    cases s with
    | nil =>
      rw [strip_nil, lowerStr_nil] at h
      exact absurd h (by decide)
    | cons c cs => rfl
  rw [is_heading_line_of_ne s hs]
  simp [h]

lemma heading_of_paper (s : PyStr) (h : matchPaperNum (lowerStr (strip s)) = true) :
    is_heading_line s = true := by
  have hs : s.isEmpty = false := by
    cases s with
    | nil =>
      rw [strip_nil, lowerStr_nil] at h
      exact absurd h (by decide)
    | cons c cs => rfl
  rw [is_heading_line_of_ne s hs]
  simp [h]

lemma raw_block_eq (block : List PyStr) (idx : Nat) (q : Question)
    (h : parse_block block idx = some q) :
    q.raw_block = normalize_text (rawAfterAns block) ∧
    rawAfterAns block = (splitAnswer ((splitExplanation (rawJoined block)).1)).1 := by
  obtain ⟨rfl, hg⟩ := parse_block_some h
  constructor
  · exact assembledQ_raw_block block
  · unfold rawAfterAns ansTriple rawAfterExpl
    rfl

lemma letter_wins (block : List PyStr) (idx : Nat) (q : Question) (rat : PyStr) (c : Char)
    (h : parse_block block idx = some q)
    (hrat : rawAnswerTextOf block = some rat)
    (hc : rat.find? isLabelChar = some c) :
    q.answer = [c.toLower] ∧ q.assumed = false := by
  obtain ⟨rfl, hg⟩ := parse_block_some h
  have hal : answerLetterOf block = some c.toLower := by
    unfold rawAnswerTextOf ansTriple splitAnswer at hrat
    unfold answerLetterOf ansTriple splitAnswer
    rcases hs : searchKeyword ansKws (rawAfterExpl block) with _ | pr <;> rw [hs] at hrat
    · exact Option.noConfusion (hrat : (none : Option PyStr) = some rat)
    · have hrat2 : ratOf pr = rat := Option.some.inj (hrat : some (ratOf pr) = some rat)
      show ((ratOf pr).find? isLabelChar).map Char.toLower = some (Char.toLower c)
      rw [hrat2, hc]
      rfl
  rw [assembledQ_answer, assembledQ_assumed]
  unfold resolvedOf
  rw [hal, resolveAnswer_some]
  exact ⟨rfl, rfl⟩

lemma idx_map_get_cases (letter : PyStr) :
    idx_map_get letter = 0 ∨ idx_map_get letter = 1 ∨ idx_map_get letter = 2 ∨
    idx_map_get letter = 3 := by
  unfold idx_map_get
  split_ifs <;> simp

lemma idx_map_get_default (letter : PyStr) (h1 : letter ≠ pyOf "a") (h2 : letter ≠ pyOf "b")
    (h3 : letter ≠ pyOf "c") (h4 : letter ≠ pyOf "d") : idx_map_get letter = 0 := by
  unfold idx_map_get
  rw [if_neg h1, if_neg h2, if_neg h3, if_neg h4]

lemma option_row_marks_eq (af : Option PyStr) :
    option_row_marks af =
      (List.range 4).map (fun i =>
        if i = idx_map_get (lowerStr (af.getD (pyOf "a"))) then pyOf "correct"
        else pyOf "incorrect") := rfl

lemma row_marks_spec (k : Nat) (hk : k = 0 ∨ k = 1 ∨ k = 2 ∨ k = 3) :
    ((List.range 4).map (fun i => if i = k then pyOf "correct" else pyOf "incorrect")).length = 4 ∧
    ((List.range 4).map (fun i => if i = k then pyOf "correct" else pyOf "incorrect")).count
      (pyOf "correct") = 1 ∧
    ((List.range 4).map (fun i => if i = k then pyOf "correct" else pyOf "incorrect")).getD k []
      = pyOf "correct" ∧
    (∀ i, i < 4 → i ≠ k →
      ((List.range 4).map (fun i => if i = k then pyOf "correct" else pyOf "incorrect")).getD i []
        = pyOf "incorrect") := by
  rcases hk with rfl | rfl | rfl | rfl <;>
    exact ⟨by decide, by decide, by decide, by decide⟩

set_option allowUnsafeReducibility true in
attribute [semireducible] filteredParas strippedParas rawJoined rawAfterExpl
  explanationOf ansTriple rawAfterAns rawAnswerTextOf answerLetterOf qoOf
  optsOf resolvedOf assembledQ parse_block parse_paragraphs


/-!  Claim theorems, counterexamples and witnesses. -/

/-- Claim C1: for every Question record emitted by parse_block, the
options field has exactly four entries, the answer is one of the letters
a, b, c, d, an assumed answer is always the letter a, and no Question is
emitted whose normalized question text is empty while all four options
are empty strings. -/
theorem C1_parse_block_invariants (block : List PyStr) (idx : Nat) (q : Question)
    (h : parse_block block idx = some q) :
    q.options.length = 4 ∧
    (q.answer = ['a'] ∨ q.answer = ['b'] ∨ q.answer = ['c'] ∨ q.answer = ['d']) ∧
    (q.assumed = true → q.answer = ['a']) ∧
    ¬(q.question = [] ∧ ∀ o ∈ q.options, o = []) :=
  parse_block_inv block idx q h

/-- The Question parse_block emits for the single-paragraph block Hi. -/
def qHi : Question :=
  { question := pyOf "Hi", options := [[], [], [], []], answer := ['a'],
    assumed := true, explanation := [], raw_block := pyOf "Hi" }

/-- Witness for C1 at a concrete block. -/
theorem C1_witness :
    qHi.options.length = 4 ∧
    (qHi.answer = ['a'] ∨ qHi.answer = ['b'] ∨ qHi.answer = ['c'] ∨ qHi.answer = ['d']) ∧
    (qHi.assumed = true → qHi.answer = ['a']) ∧
    ¬(qHi.question = [] ∧ ∀ o ∈ qHi.options, o = []) :=
  C1_parse_block_invariants [pyOf "Hi"] 0 qHi (by decide)

/-- Claim C2: the segmentation-plus-parsing pipeline is a total function
on finite paragraph sequences, always returning a (possibly empty) list
of Question records satisfying the record invariants; in particular the
empty, all-blank and all-separator sequences return the empty list, every
error or absence case having been absorbed into defaults (the embedding
itself is a total function, so no exception behaviour exists). -/
theorem C2_pipeline_total :
    (∀ (ps : List PyStr) (q : Question), q ∈ parse_paragraphs ps →
      q.options.length = 4 ∧
      (q.answer = ['a'] ∨ q.answer = ['b'] ∨ q.answer = ['c'] ∨ q.answer = ['d']) ∧
      (q.assumed = true → q.answer = ['a']) ∧
      ¬(q.question = [] ∧ ∀ o ∈ q.options, o = [])) ∧
    parse_paragraphs [] = [] ∧
    parse_paragraphs [pyOf "", pyOf "   "] = [] ∧
    parse_paragraphs [pyOf "---", pyOf "***"] = [] :=
  ⟨pipeline_inv, by decide, by decide, by decide⟩

/-- Witness for C2 at a concrete paragraph sequence. -/
theorem C2_witness :
    qHi.options.length = 4 ∧
    (qHi.answer = ['a'] ∨ qHi.answer = ['b'] ∨ qHi.answer = ['c'] ∨ qHi.answer = ['d']) ∧
    (qHi.assumed = true → qHi.answer = ['a']) ∧
    ¬(qHi.question = [] ∧ ∀ o ∈ qHi.options, o = []) :=
  C2_pipeline_total.1 [pyOf "Hi"] qHi (by decide)

/-- Claim C3 counterexample: for the claimed scenario (options Paris,
London, Rome, Berlin and answer line Answer: London) the answer-line
processing of parse_block extracts the letter d occurring inside the word
London, so the resolution returns d with assumed false and never reaches
the containment step; the claimed result b is not produced.  The last
conjunct evaluates a full block with that answer line. -/
theorem C3_counterexample :
    splitAnswer (pyOf "Answer: London") = ([], some (pyOf "London"), some 'd') ∧
    resolveAnswer [pyOf "Paris", pyOf "London", pyOf "Rome", pyOf "Berlin"] (some 'd')
      (some (pyOf "London")) = (['d'], false) ∧
    (parse_block
        [pyOf "Which city? Options: (a) Paris (b) London (c) Rome (d) Berlin Answer: London"]
        0).map Question.answer = some ['d'] ∧
    (['d'] : PyStr) ≠ ['b'] := by decide

/-- Claim C3 as amended: when no answer letter was extracted, resolution
is by case-insensitive containment in order a, b, c, d, first non-empty
match winning with assumed false, and with no letter and no match the
result is the assumed letter a; but for the scenario options Paris,
London, Rome, Berlin with answer line Answer: London, the letter d inside
London is extracted, so the result is d with assumed false (containment
is not consulted). -/
theorem C3_amended_resolution :
    (∀ (opts : List PyStr) (rat : PyStr), rat ≠ [] →
      (∀ o ∈ opts, o = [] ∨ containsSub (lowerStr o) (lowerStr rat) = false) →
      resolveAnswer opts none (some rat) = (['a'], true)) ∧
    (∀ (opts : List PyStr) (rat : PyStr) (k : Nat), rat ≠ [] →
      k < opts.length → opts.getD k [] ≠ [] →
      containsSub (lowerStr (opts.getD k [])) (lowerStr rat) = true →
      (∀ j, j < k → opts.getD j [] = [] ∨
        containsSub (lowerStr (opts.getD j [])) (lowerStr rat) = false) →
      resolveAnswer opts none (some rat) = ([abcdGet k], false)) ∧
    (∀ opts : List PyStr, resolveAnswer opts none none = (['a'], true)) ∧
    (∀ opts : List PyStr, resolveAnswer opts none (some []) = (['a'], true)) ∧
    splitAnswer (pyOf "Answer: London") = ([], some (pyOf "London"), some 'd') ∧
    resolveAnswer [pyOf "Paris", pyOf "London", pyOf "Rome", pyOf "Berlin"] (some 'd')
      (some (pyOf "London")) = (['d'], false) := by
  refine ⟨resolve_no_match, resolve_first_match, resolveAnswer_none_none, ?_, by decide, by decide⟩
  intro opts
  exact resolveAnswer_empty opts [] rfl

/-- Witness for the amended C3: a text answer matching the third option
by containment resolves to c with assumed false. -/
theorem C3_amended_witness :
    resolveAnswer [pyOf "5", pyOf "6", pyOf "7", pyOf "8"] none (some (pyOf "7"))
      = (['c'], false) := by
  have h := C3_amended_resolution.2.1 [pyOf "5", pyOf "6", pyOf "7", pyOf "8"] (pyOf "7") 2
    (by decide) (by decide) (by decide) (by decide) (by decide)
  exact h

/-- The input on which normalize_text fails to be idempotent: the letter
e, the zero-width space U+200B, the combining acute U+0301. -/
def zwspAcute : PyStr := ['e', '\u200B', '\u0301']

/-- Claim C4 evaluation at the failing input: NFC leaves the blocked
sequence unchanged, the zero-width removal then unblocks composition, so
one application returns e followed by the combining acute while a second
application composes them into U+00E9 — normalize_text is not idempotent.
The null and empty cases do return the empty string. -/
theorem C4_normalize_not_idempotent :
    normalize_text zwspAcute = ['e', '\u0301'] ∧
    normalize_text (normalize_text zwspAcute) = ['\u00E9'] ∧
    normalize_text (normalize_text zwspAcute) ≠ normalize_text zwspAcute ∧
    normalize_text_opt none = [] ∧
    normalize_text [] = [] := by decide

/-- Claim C5: segmentation keeps exactly the non-blank, non-separator
paragraphs, in order (the flattening of the blocks is the filtered
sequence), produces no empty block, never includes a separator paragraph
in a block, and on the concrete input yields the two expected blocks;
the separator test accepts runs of the five separator characters only. -/
theorem C5_segmentation :
    (∀ ps : List PyStr,
      (group_paragraphs_into_blocks ps).flatten = ps.filter (fun p => !isBlankOrSep p) ∧
      (∀ b ∈ group_paragraphs_into_blocks ps, b ≠ []) ∧
      (∀ b ∈ group_paragraphs_into_blocks ps, ∀ p ∈ b, isBlankOrSep p = false)) ∧
    group_paragraphs_into_blocks [pyOf "Q1 text", pyOf "---", pyOf "", pyOf "Q2 text"] =
      [[pyOf "Q1 text"], [pyOf "Q2 text"]] ∧
    isBlankOrSep (pyOf "---") = true ∧
    isBlankOrSep (pyOf "   ") = true ∧
    SEPARATOR_RE_match (pyOf "-—–*_") = true ∧
    SEPARATOR_RE_match (pyOf "a-") = false := by
  refine ⟨?_, by decide, by decide, by decide, by decide, by decide⟩
  intro ps
  exact ⟨group_flatten ps, group_ne_nil ps, group_no_sep ps⟩

/-- Witness for C5 at the concrete paragraph sequence. -/
theorem C5_witness :
    (group_paragraphs_into_blocks [pyOf "Q1 text", pyOf "---", pyOf "", pyOf "Q2 text"]).flatten
      = [pyOf "Q1 text", pyOf "Q2 text"] ∧
    ([pyOf "Q1 text"] : List PyStr) ≠ [] := by
  constructor
  · rw [(C5_segmentation.1 [pyOf "Q1 text", pyOf "---", pyOf "", pyOf "Q2 text"]).1]
    decide
  · exact (C5_segmentation.1 [pyOf "Q1 text", pyOf "---", pyOf "", pyOf "Q2 text"]).2.1
      [pyOf "Q1 text"] (by decide)

/-- Claim C6 counterexample: the heading detector returns false on the
table-of-contents markers index and contents, which the claim asserts it
accepts. -/
theorem C6_counterexample :
    is_heading_line (pyOf "index") = false ∧
    is_heading_line (pyOf "contents") = false ∧
    is_heading_line (pyOf "Index") = false ∧
    is_heading_line (pyOf "Contents") = false := by decide

/-- Claim C6 as amended: is_heading_line accepts (case-insensitively,
after stripping) every line beginning with unique questions, selected
questions, questions on, or paper followed by digits — but not the
markers index and contents, which are absent from the catalog; a block
consisting only of such heading lines yields no Question. -/
theorem C6_amended_heading :
    (∀ s : PyStr, litPre (pyOf "unique questions") (lowerStr (strip s)) = true →
      is_heading_line s = true) ∧
    (∀ s : PyStr, litPre (pyOf "selected questions") (lowerStr (strip s)) = true →
      is_heading_line s = true) ∧
    (∀ s : PyStr, matchQuestionsOn (lowerStr (strip s)) = true → is_heading_line s = true) ∧
    (∀ s : PyStr, matchPaperNum (lowerStr (strip s)) = true → is_heading_line s = true) ∧
    is_heading_line (pyOf "Unique Questions with Answers and Explanations") = true ∧
    is_heading_line (pyOf "Selected Questions with Answers") = true ∧
    is_heading_line (pyOf "PAPER 12") = true ∧
    is_heading_line (pyOf "Questions on Algebra") = true ∧
    parse_block [pyOf "Paper 1", pyOf "Unique Questions"] 0 = none :=
  ⟨heading_of_uq, heading_of_sq, heading_of_qon, heading_of_paper,
   by decide, by decide, by decide, by decide, by decide⟩

/-- Witness for the amended C6 at a concrete line. -/
theorem C6_amended_witness : is_heading_line (pyOf " unique QUESTIONS here") = true :=
  C6_amended_heading.1 (pyOf " unique QUESTIONS here") (by decide)

/-- The options text of the C7 failing input (the pair regex finds no
pair in it, since every label is followed by an open parenthesis). -/
def c7opts : PyStr := pyOf "intro a)(one b)(two c)(three d)(four"

/-- Claim C7 evaluation at the failing input: the fallback split yields
five non-empty segments including the prefix segment intro, and the code
keeps the first four of them — the prefix is retained and the last option
text dropped, although the claim (and the comment in the source) say the
prefix is discarded; with fewer segments the padding behaviour does hold. -/
theorem C7_fallback_prefix_kept :
    opt_pairs c7opts = [] ∧
    splitInline c7opts =
      [pyOf "intro", pyOf "(one", pyOf "(two", pyOf "(three", pyOf "(four"] ∧
    buildOpts c7opts = [pyOf "intro", pyOf "(one", pyOf "(two", pyOf "(three"] ∧
    (pyOf "intro") ∈ buildOpts c7opts ∧
    ¬((pyOf "(four") ∈ buildOpts c7opts) ∧
    buildOpts (pyOf "7") = [pyOf "7", [], [], []] ∧
    (parse_block [pyOf "Pick one", pyOf "Options: intro a)(one b)(two c)(three d)(four"]
        0).map Question.options =
      some [pyOf "intro", pyOf "(one", pyOf "(two", pyOf "(three"] := by decide

/-- The block exhibiting the C8 counterexample. -/
def c8block : List PyStr :=
  [pyOf "What is it? a) cat b) dog Answer: a Explanation: because"]

/-- Claim C8 counterexample: the emitted raw_block is not the untouched
concatenation of the block paragraphs — the explanation and answer spans
have been removed from it before it is stored. -/
theorem C8_counterexample :
    (parse_block c8block 0).map Question.raw_block =
      some (pyOf "What is it? a) cat b) dog") ∧
    List.intercalate [' '] (strippedParas c8block) =
      pyOf "What is it? a) cat b) dog Answer: a Explanation: because" ∧
    (parse_block c8block 0).map Question.raw_block ≠
      some (pyOf "What is it? a) cat b) dog Answer: a Explanation: because") := by decide

/-- Claim C8 as amended: for every emitted Question, raw_block equals
normalize_text applied to the joined block text after the explanation
span and the answer span have been removed (and before the options
split). -/
theorem C8_amended_raw_block (block : List PyStr) (idx : Nat) (q : Question)
    (h : parse_block block idx = some q) :
    q.raw_block = normalize_text (rawAfterAns block) ∧
    rawAfterAns block = (splitAnswer ((splitExplanation (rawJoined block)).1)).1 :=
  raw_block_eq block idx q h

/-- The Question parse_block emits for the C8 block. -/
def q8 : Question :=
  { question := pyOf "What is it?", options := [pyOf "t", pyOf "dog", [], []],
    answer := ['a'], assumed := false, explanation := pyOf "because",
    raw_block := pyOf "What is it? a) cat b) dog" }

/-- Witness for the amended C8 at the concrete block. -/
theorem C8_amended_witness :
    q8.raw_block = normalize_text (rawAfterAns c8block) ∧
    rawAfterAns c8block = (splitAnswer ((splitExplanation (rawJoined c8block)).1)).1 :=
  C8_amended_raw_block c8block 0 q8 (by decide)

/-- Claim C9: whenever the answer label matched and the captured raw
answer text contains any character of the class A-D or a-d — even inside
an ordinary word — the emitted Question carries that first character,
lower-cased, as its answer with assumed false, whatever the options
contain (the containment step is never reached). -/
theorem C9_letter_preempts_containment (block : List PyStr) (idx : Nat) (q : Question)
    (rat : PyStr) (c : Char)
    (h : parse_block block idx = some q)
    (hrat : rawAnswerTextOf block = some rat)
    (hc : rat.find? isLabelChar = some c) :
    q.answer = [c.toLower] ∧ q.assumed = false :=
  letter_wins block idx q rat c h hrat hc

/-- The Question parse_block emits for the block with an answer line. -/
def qHiAns : Question :=
  { question := pyOf "Hi", options := [[], [], [], []], answer := ['b'],
    assumed := false, explanation := [], raw_block := pyOf "Hi" }

/-- Witness for C9 at a concrete block. -/
theorem C9_witness : qHiAns.answer = ['b'.toLower] ∧ qHiAns.assumed = false :=
  C9_letter_preempts_containment [pyOf "Hi Answer: b"] 0 qHiAns ['b'] 'b'
    (by decide) (by decide) (by decide)

/-- Claim C10: the option rows carry exactly one correct mark, at the row
indexed by the lower-cased answer letter through the a-to-0 … d-to-3 map,
any other letter (or a missing answer field) falling back to row 0, and
all other rows carry incorrect. -/
theorem C10_option_rows (af : Option PyStr) :
    (option_row_marks af).length = 4 ∧
    (option_row_marks af).count (pyOf "correct") = 1 ∧
    (option_row_marks af).getD (idx_map_get (lowerStr (af.getD (pyOf "a")))) []
      = pyOf "correct" ∧
    (∀ i, i < 4 → i ≠ idx_map_get (lowerStr (af.getD (pyOf "a"))) →
      (option_row_marks af).getD i [] = pyOf "incorrect") ∧
    idx_map_get (pyOf "a") = 0 ∧ idx_map_get (pyOf "b") = 1 ∧
    idx_map_get (pyOf "c") = 2 ∧ idx_map_get (pyOf "d") = 3 ∧
    (∀ letter : PyStr, letter ≠ pyOf "a" → letter ≠ pyOf "b" → letter ≠ pyOf "c" →
      letter ≠ pyOf "d" → idx_map_get letter = 0) ∧
    option_row_marks none = option_row_marks (some (pyOf "a")) := by
  have hspec := row_marks_spec (idx_map_get (lowerStr (af.getD (pyOf "a"))))
    (idx_map_get_cases _)
  rw [option_row_marks_eq]
  exact ⟨hspec.1, hspec.2.1, hspec.2.2.1, hspec.2.2.2, by decide, by decide, by decide,
    by decide, idx_map_get_default, rfl⟩

/-- Witness for C10 at a concrete answer field. -/
theorem C10_witness :
    (option_row_marks (some (pyOf "b"))).count (pyOf "correct") = 1 ∧
    (option_row_marks (some (pyOf "b"))).getD 0 [] = pyOf "incorrect" ∧
    idx_map_get (pyOf "x") = 0 :=
  ⟨(C10_option_rows (some (pyOf "b"))).2.1,
   (C10_option_rows (some (pyOf "b"))).2.2.2.1 0 (by decide) (by decide),
   (C10_option_rows none).2.2.2.2.2.2.2.2.1 (pyOf "x")
     (by decide) (by decide) (by decide) (by decide)⟩

end QuizConv
